import Mathlib

/-!
# Verification of the `layer-system` dispatch stack

A shallow embedding of `src/lib.rs`: the `ChangeAction`/`Change` result
vocabulary, the `Layer` trait, and `LayerManager` with its two-phase
`update` dispatch.

Modelling notes.
* A Rust layer is a trait object with two methods.  We model a layer by its
  behaviour: `update : S → E → S × Change` (the `&mut S` out-parameter is the
  first component of the result) and `passive_update : S → E → S`.  The
  manager never inspects a layer's private fields, so a layer's internal
  mutable state (behind `&mut self`) is not observable by the dispatch
  algorithm and is not modelled; any such state can be folded into `S`.
* The Rust `while i > 0 { i -= 1; … }` loop is modelled by structural
  recursion on `i` (`updateLoop`), with the current iteration's index being
  `i` after the decrement, exactly as in the source.  `self.0[i]` is total in
  the source because `i < self.0.len()` holds at every iteration; the
  embedding uses `List.get?` and returns the stack unchanged in the
  (unreachable) out-of-bounds case.
* `updateLoopT` / `passiveLoopT` are ghost-instrumented twins of the two
  loops that additionally record which layers were invoked; the projection
  lemmas `updateLoopT_fst` / `passiveLoopT_fst` show they compute the same
  stack and state as the plain translation.
-/

/-- `ChangeAction` from the source: the special action of a `Change`. -/
inductive ChangeAction where
  /-- No special action to the layer. -/
  | none
  /-- Pass the event to the next layer. -/
  | pass
  /-- Remove the current layer. -/
  | remove
  /-- Remove all layers. -/
  | clear
deriving DecidableEq, Repr

/-- The payload of a `Change`, parameterised by the layer type `L` (this
breaks the `Change`/`Layer` mutual recursion; `Change S E` below instantiates
`L := Layer S E`). Fields are exactly the source's: `add` and `action`. -/
structure ChangeOf (L : Type) where
  /-- Add new layers on top of the current layer. -/
  add : List L
  /-- Special actions. -/
  action : ChangeAction

/-- The `Layer` trait: `update` is the authoritative handler returning a
`Change`, `passive_update` the non-authoritative one (its source default is a
no-op, i.e. `fun s _ => s`). -/
inductive Layer (S E : Type) where
  | mk (update : S → E → S × ChangeOf (Layer S E))
       (passive_update : S → E → S)

/-- `Change<S, E>` from the source. -/
abbrev Change (S E : Type) := ChangeOf (Layer S E)

/-- Projection: the authoritative `update` method of a layer. -/
def Layer.update {S E : Type} : Layer S E → S → E → S × Change S E
  | .mk u _ => u

/-- Projection: the `passive_update` method of a layer. -/
def Layer.passive_update {S E : Type} : Layer S E → S → E → S
  | .mk _ p => p

namespace Change

variable {S E : Type}

/-- A simple change doing nothing. -/
def none : Change S E := ⟨[], ChangeAction.none⟩

/-- A change passing the event to the next layer. -/
def pass : Change S E := ⟨[], ChangeAction.pass⟩

/-- A change just adding new layers. -/
def add (add : List (Layer S E)) : Change S E := ⟨add, ChangeAction.none⟩

/-- A simple change removing the current layer. -/
def remove : Change S E := ⟨[], ChangeAction.remove⟩

/-- A change replacing the current layer with new layers. -/
def replace (add : List (Layer S E)) : Change S E := ⟨add, ChangeAction.remove⟩

/-- A change removing all layers. -/
def close : Change S E := ⟨[], ChangeAction.clear⟩

/-- A change replacing all layers with a new stack of layers. -/
def clear (add : List (Layer S E)) : Change S E := ⟨add, ChangeAction.clear⟩

end Change

/-- The layer manager: `pub struct LayerManager<S, E>(Vec<Box<dyn Layer<S, E>>>)`. -/
structure LayerManager (S E : Type) where
  layers : List (Layer S E)

namespace LayerManager

variable {S E : Type}

/-- Create a new layer manager containing specified initial layers. -/
def new (layers : List (Layer S E)) : LayerManager S E := ⟨layers⟩

/-- Checks if the layer manager is still active: `!self.0.is_empty()`. -/
def is_active (m : LayerManager S E) : Bool := !m.layers.isEmpty

end LayerManager

/-- The source's `for (i, added) in add.into_iter().enumerate()
{ self.0.insert(add_index + i, added); }` loop: insert the elements of `adds`
at positions `addIndex + k`, `k = 0, 1, …`. -/
def insertLoop {L : Type} (addIndex : Nat) : Nat → List L → List L → List L
  | _, [], stack => stack
  | k, a :: rest, stack => insertLoop addIndex (k + 1) rest (stack.insertIdx (addIndex + k) a)

/-- The top-down authoritative pass (`while i > 0 { i -= 1; … }`).  The fuel
argument is the loop variable `i` before the decrement, so fuel `i + 1` means
the current iteration visits index `i`.  Returns the final state and stack. -/
def updateLoop {S E : Type} (event : E) : Nat → S → List (Layer S E) → S × List (Layer S E)
  | 0, s, stack => (s, stack)
  | i + 1, s, stack =>
    match stack[i]? with
    | Option.none => (s, stack)
    | Option.some layer =>
      let (s1, ch) := layer.update s event
      let addIndex := i + 1
      let stack1 := insertLoop addIndex 0 (ChangeOf.add ch) stack
      match ChangeOf.action ch with
      | ChangeAction.none => (s1, stack1)
      | ChangeAction.pass => updateLoop event i s1 stack1
      | ChangeAction.remove => (s1, stack1.eraseIdx i)
      | ChangeAction.clear => (s1, [])

/-- The bottom-up passive pass:
`for layer in self.0.iter_mut() { layer.passive_update(state, &event); }`. -/
def passiveLoop {S E : Type} (event : E) : S → List (Layer S E) → S
  | s, [] => s
  | s, layer :: rest => passiveLoop event (layer.passive_update s event) rest

/-- `LayerManager::update`: the two-phase dispatch.  The Rust method mutates
`self` and `state` in place; the embedding returns the new manager and state. -/
def LayerManager.update {S E : Type} (m : LayerManager S E) (state : S) (event : E) :
    LayerManager S E × S :=
  let count := m.layers.length
  let (s1, stack1) := updateLoop event count state m.layers
  (⟨stack1⟩, passiveLoop event s1 stack1)

/-! ## Ghost-instrumented twins

`updateLoopT` additionally returns, in call order, the list of pairs
`(i, layer)` such that `layer.update` was invoked while `layer` sat at index
`i` of the then-current stack.  `passiveLoopT` returns the list of layers on
which `passive_update` was invoked, in call order. -/

/-- Instrumented top-down pass recording the authoritative `update` calls. -/
def updateLoopT {S E : Type} (event : E) :
    Nat → S → List (Layer S E) → S × List (Layer S E) × List (Nat × Layer S E)
  | 0, s, stack => (s, stack, [])
  | i + 1, s, stack =>
    match stack[i]? with
    | Option.none => (s, stack, [])
    | Option.some layer =>
      let (s1, ch) := layer.update s event
      let addIndex := i + 1
      let stack1 := insertLoop addIndex 0 (ChangeOf.add ch) stack
      match ChangeOf.action ch with
      | ChangeAction.none => (s1, stack1, [(i, layer)])
      | ChangeAction.pass =>
        let (s2, stack2, tr) := updateLoopT event i s1 stack1
        (s2, stack2, (i, layer) :: tr)
      | ChangeAction.remove => (s1, stack1.eraseIdx i, [(i, layer)])
      | ChangeAction.clear => (s1, [], [(i, layer)])

/-- Instrumented bottom-up pass recording the `passive_update` calls. -/
def passiveLoopT {S E : Type} (event : E) : S → List (Layer S E) → S × List (Layer S E)
  | s, [] => (s, [])
  | s, layer :: rest =>
    let (s2, tr) := passiveLoopT event (layer.passive_update s event) rest
    (s2, layer :: tr)

/-- Instrumented `LayerManager.update`: result of the plain dispatch together
with the authoritative call trace and the passive call trace. -/
def LayerManager.updateT {S E : Type} (m : LayerManager S E) (state : S) (event : E) :
    (LayerManager S E × S) × List (Nat × Layer S E) × List (Layer S E) :=
  let count := m.layers.length
  let (s1, stack1, authTr) := updateLoopT event count state m.layers
  let (s2, passTr) := passiveLoopT event s1 stack1
  ((⟨stack1⟩, s2), authTr, passTr)

/-! ## Basic properties of the instrumentation -/

theorem updateLoopT_fst {S E : Type} (event : E) :
    ∀ (i : Nat) (s : S) (stack : List (Layer S E)),
      ((updateLoopT event i s stack).1, (updateLoopT event i s stack).2.1) =
        updateLoop event i s stack := by
  intro i
  induction i with
  | zero => intro s stack; rfl
  | succ i ih =>
    intro s stack
    rcases hget : stack[i]? with _ | layer
    · simp only [updateLoopT, updateLoop, hget]
    · rcases hu : layer.update s event with ⟨s1, add1, act1⟩
      cases act1 <;> simp only [updateLoopT, updateLoop, hget, hu]
      exact ih _ _

theorem passiveLoopT_fst {S E : Type} (event : E) :
    ∀ (s : S) (stack : List (Layer S E)),
      (passiveLoopT event s stack).1 = passiveLoop event s stack := by
  intro s stack
  induction stack generalizing s with
  | nil => rfl
  | cons layer rest ih => simp only [passiveLoopT, passiveLoop, ih]

/-- The passive trace is the traversed stack itself: `passive_update` is
invoked exactly once per layer, bottom-to-top, whatever the layers do. -/
theorem passiveLoopT_trace {S E : Type} (event : E) :
    ∀ (s : S) (stack : List (Layer S E)), (passiveLoopT event s stack).2 = stack := by
  intro s stack
  induction stack generalizing s with
  | nil => rfl
  | cons layer rest ih => simp only [passiveLoopT, ih]

/-! ## The effect of one loop iteration -/

theorem insertIdx_splice {α : Type} (a : α) :
    ∀ (n : Nat) (l : List α), n ≤ l.length → l.insertIdx n a = l.take n ++ a :: l.drop n := by
  intro n
  induction n with
  | zero => intro l _; simp [List.insertIdx_zero]
  | succ n ih =>
    intro l h
    cases l with
    | nil => simp at h
    | cons x l =>
      simp only [List.insertIdx_succ_cons, List.take_succ_cons, List.drop_succ_cons,
        List.cons_append]
      rw [ih l (by simpa using h)]

/-- The enumerated insertion loop splices `adds` into the stack at position
`addIndex + k`, preserving the order of `adds`. -/
theorem insertLoop_splice {L : Type} (addIndex : Nat) :
    ∀ (adds : List L) (k : Nat) (stack : List L), addIndex + k ≤ stack.length →
      insertLoop addIndex k adds stack =
        stack.take (addIndex + k) ++ adds ++ stack.drop (addIndex + k) := by
  intro adds
  induction adds with
  | nil => intro k stack _; simp [insertLoop]
  | cons a rest ih =>
    intro k stack h
    have hlen : (stack.insertIdx (addIndex + k) a).length = stack.length + 1 :=
      List.length_insertIdx _ _ h
    have hsplice := insertIdx_splice a (addIndex + k) stack h
    have htk : (stack.take (addIndex + k)).length = addIndex + k := by
      simp [List.length_take, Nat.min_eq_left h]
    rw [insertLoop, ih (k + 1) _ (by omega)]
    have harith : addIndex + (k + 1) = (stack.take (addIndex + k)).length + 1 := by omega
    rw [hsplice, harith, List.take_append, List.drop_append]
    simp

/-- One iteration of the authoritative loop, visiting index `i`: the add list
is spliced in directly above `i`, then the action is interpreted. -/
theorem updateLoop_step {S E : Type} (event : E) (i : Nat) (s : S) (stack : List (Layer S E))
    (layer : Layer S E) (h : stack[i]? = some layer) :
    updateLoop event (i + 1) s stack =
      match ChangeOf.action (layer.update s event).2 with
      | ChangeAction.none => ((layer.update s event).1,
          stack.take (i + 1) ++ ChangeOf.add (layer.update s event).2 ++ stack.drop (i + 1))
      | ChangeAction.pass => updateLoop event i (layer.update s event).1
          (stack.take (i + 1) ++ ChangeOf.add (layer.update s event).2 ++ stack.drop (i + 1))
      | ChangeAction.remove => ((layer.update s event).1,
          stack.take i ++ ChangeOf.add (layer.update s event).2 ++ stack.drop (i + 1))
      | ChangeAction.clear => ((layer.update s event).1, []) := by
  have hi : i < stack.length := (List.getElem?_eq_some.mp h).1
  have hsplice : insertLoop (i + 1) 0 (ChangeOf.add (layer.update s event).2) stack =
      stack.take (i + 1) ++ ChangeOf.add (layer.update s event).2 ++ stack.drop (i + 1) := by
    have := insertLoop_splice (i + 1) (ChangeOf.add (layer.update s event).2) 0 stack
      (by omega)
    simpa using this
  have htake : stack.take (i + 1) = stack.take i ++ [layer] := by
    rw [List.take_succ]
    simp [h]
  have htk : (stack.take i).length = i := by
    simp [List.length_take, Nat.min_eq_left (Nat.le_of_lt hi)]
  have herase : (stack.take (i + 1) ++ ChangeOf.add (layer.update s event).2 ++
      stack.drop (i + 1)).eraseIdx i =
      stack.take i ++ ChangeOf.add (layer.update s event).2 ++ stack.drop (i + 1) := by
    rw [htake]
    rw [List.append_assoc, List.append_assoc]
    rw [List.eraseIdx_append_of_length_le (by omega)]
    simp [htk]
  simp only [updateLoop, h]
  rcases hu : layer.update s event with ⟨s1, ch⟩
  rcases ch with ⟨chAdd, chAction⟩
  simp only [hu] at hsplice herase ⊢
  cases chAction <;> simp only [hsplice, herase]

/-- One iteration of the instrumented authoritative loop. -/
theorem updateLoopT_step {S E : Type} (event : E) (i : Nat) (s : S) (stack : List (Layer S E))
    (layer : Layer S E) (h : stack[i]? = some layer) :
    updateLoopT event (i + 1) s stack =
      match ChangeOf.action (layer.update s event).2 with
      | ChangeAction.none => ((layer.update s event).1,
          stack.take (i + 1) ++ ChangeOf.add (layer.update s event).2 ++ stack.drop (i + 1),
          [(i, layer)])
      | ChangeAction.pass =>
          ((updateLoopT event i (layer.update s event).1
              (stack.take (i + 1) ++ ChangeOf.add (layer.update s event).2 ++
                stack.drop (i + 1))).1,
           (updateLoopT event i (layer.update s event).1
              (stack.take (i + 1) ++ ChangeOf.add (layer.update s event).2 ++
                stack.drop (i + 1))).2.1,
           (i, layer) :: (updateLoopT event i (layer.update s event).1
              (stack.take (i + 1) ++ ChangeOf.add (layer.update s event).2 ++
                stack.drop (i + 1))).2.2)
      | ChangeAction.remove => ((layer.update s event).1,
          stack.take i ++ ChangeOf.add (layer.update s event).2 ++ stack.drop (i + 1),
          [(i, layer)])
      | ChangeAction.clear => ((layer.update s event).1, [], [(i, layer)]) := by
  have hi : i < stack.length := (List.getElem?_eq_some.mp h).1
  have hsplice : insertLoop (i + 1) 0 (ChangeOf.add (layer.update s event).2) stack =
      stack.take (i + 1) ++ ChangeOf.add (layer.update s event).2 ++ stack.drop (i + 1) := by
    have := insertLoop_splice (i + 1) (ChangeOf.add (layer.update s event).2) 0 stack
      (by omega)
    simpa using this
  have htake : stack.take (i + 1) = stack.take i ++ [layer] := by
    rw [List.take_succ]
    simp [h]
  have htk : (stack.take i).length = i := by
    simp [List.length_take, Nat.min_eq_left (Nat.le_of_lt hi)]
  have herase : (stack.take (i + 1) ++ ChangeOf.add (layer.update s event).2 ++
      stack.drop (i + 1)).eraseIdx i =
      stack.take i ++ ChangeOf.add (layer.update s event).2 ++ stack.drop (i + 1) := by
    rw [htake]
    rw [List.append_assoc, List.append_assoc]
    rw [List.eraseIdx_append_of_length_le (by omega)]
    simp [htk]
  simp only [updateLoopT, h]
  rcases hu : layer.update s event with ⟨s1, ch⟩
  rcases ch with ⟨chAdd, chAction⟩
  simp only [hu] at hsplice herase ⊢
  cases chAction <;> simp only [hsplice, herase]

theorem getElem?_splice_low {α : Type} (stack rest : List α) (n j : Nat)
    (hn : n ≤ stack.length) (hj : j < n) :
    (stack.take n ++ rest)[j]? = stack[j]? := by
  have hlen : (stack.take n).length = n := by
    simp [List.length_take, Nat.min_eq_left hn]
  rw [List.getElem?_append, if_pos (by omega)]
  simp [List.getElem?_take, hj]

/-- Master description of the authoritative pass started with fuel `i`
(visiting indices `i - 1, i - 2, …`): the call trace consists of consecutive
descending indices starting at `i - 1`, and every call goes to the layer that
occupied that index in the stack the pass started from. -/
theorem updateLoopT_trace_spec {S E : Type} (event : E) :
    ∀ (i : Nat) (s : S) (stack : List (Layer S E)), i ≤ stack.length →
      ((updateLoopT event i s stack).2.2.length ≤ i ∧
        (updateLoopT event i s stack).2.2.map Prod.fst =
          (List.range' (i - (updateLoopT event i s stack).2.2.length)
            (updateLoopT event i s stack).2.2.length).reverse) ∧
      ∀ p ∈ (updateLoopT event i s stack).2.2, stack[p.1]? = some p.2 := by
  intro i
  induction i with
  | zero =>
    intro s stack _
    simp [updateLoopT]
  | succ i ih =>
    intro s stack h
    have hlt : i < stack.length := h
    have hget : stack[i]? = some stack[i] := List.getElem?_eq_some.mpr ⟨hlt, rfl⟩
    rw [updateLoopT_step event i s stack stack[i] hget]
    rcases hact : ChangeOf.action (stack[i].update s event).2 with _ | _ | _ | _ <;>
      simp only [hact]
    case pass =>
      set s1 := (stack[i].update s event).1 with hs1
      set stack1 := stack.take (i + 1) ++ ChangeOf.add (stack[i].update s event).2 ++
        stack.drop (i + 1) with hstack1
      have hlen1 : i ≤ stack1.length := by
        have : (stack.take (i + 1)).length = i + 1 := by
          simp [List.length_take, Nat.min_eq_left (Nat.succ_le_of_lt hlt)]
        simp only [hstack1, List.append_assoc, List.length_append, this]
        omega
      obtain ⟨⟨hk, hmap⟩, hmem⟩ := ih s1 stack1 hlen1
      set tr := (updateLoopT event i s1 stack1).2.2 with htr
      refine ⟨⟨by simpa using Nat.succ_le_succ hk, ?_⟩, ?_⟩
      · have harith : i + 1 - (tr.length + 1) = i - tr.length := by omega
        have hconcat : List.range' (i - tr.length) (tr.length + 1) =
            List.range' (i - tr.length) tr.length ++ [i] := by
          have := @List.range'_concat 1 (i - tr.length) tr.length
          rwa [show i - tr.length + 1 * tr.length = i by omega] at this
        simp only [List.length_cons, List.map_cons, hmap, harith, hconcat,
          List.reverse_append, List.reverse_cons, List.reverse_nil,
          List.nil_append, List.singleton_append]
      · intro p hp
        rcases List.mem_cons.mp hp with hp | hp
        · subst hp; exact hget
        · have h1 := hmem p hp
          have hfst : p.1 ∈ tr.map Prod.fst := List.mem_map_of_mem Prod.fst hp
          rw [hmap, List.mem_reverse] at hfst
          have hplt : p.1 < i := by
            have := (List.mem_range'_1.mp hfst).2
            omega
          rw [hstack1, List.append_assoc] at h1
          rwa [getElem?_splice_low stack _ (i + 1) p.1 (Nat.succ_le_of_lt hlt)
            (by omega)] at h1
    all_goals
      refine ⟨⟨by simp, ?_⟩, ?_⟩
      · simp [List.range'_one]
      · intro p hp
        rcases List.mem_singleton.mp hp with rfl
        exact hget

/-! ## Unfolding helpers for the two-phase dispatch -/

theorem update_eq {S E : Type} (m : LayerManager S E) (s : S) (event : E) :
    m.update s event =
      (⟨(updateLoop event m.layers.length s m.layers).2⟩,
        passiveLoop event (updateLoop event m.layers.length s m.layers).1
          (updateLoop event m.layers.length s m.layers).2) := rfl

theorem updateT_eq {S E : Type} (m : LayerManager S E) (s : S) (event : E) :
    m.updateT s event =
      ((⟨(updateLoopT event m.layers.length s m.layers).2.1⟩,
        (passiveLoopT event (updateLoopT event m.layers.length s m.layers).1
          (updateLoopT event m.layers.length s m.layers).2.1).1),
       (updateLoopT event m.layers.length s m.layers).2.2,
       (passiveLoopT event (updateLoopT event m.layers.length s m.layers).1
         (updateLoopT event m.layers.length s m.layers).2.1).2) := rfl

/-! ## The claims -/

/-- C1: a layer that is visited at index `i` during dispatch and returns
`Change.clear adds` has exactly the same effect as one returning
`Change.close`: the just-inserted `adds` are immediately discarded by the
`Clear` action, the authoritative pass ends with the empty stack, so the two
constructors are behaviorally equivalent (and a whole `update` call from the
top then ends with an empty, state-`s1` manager either way). -/
theorem C1_clear_equiv_close {S E : Type} (event : E) (i : Nat) (s : S)
    (stack stack' : List (Layer S E)) (layer layer' : Layer S E)
    (adds : List (Layer S E)) (s1 : S)
    (h : stack[i]? = some layer) (hu : layer.update s event = (s1, Change.clear adds))
    (h' : stack'[i]? = some layer') (hu' : layer'.update s event = (s1, Change.close)) :
    updateLoop event (i + 1) s stack = (s1, []) ∧
      updateLoop event (i + 1) s stack = updateLoop event (i + 1) s stack' ∧
      (stack.length = i + 1 → stack'.length = i + 1 →
        LayerManager.update ⟨stack⟩ s event = (⟨[]⟩, s1) ∧
        LayerManager.update ⟨stack⟩ s event = LayerManager.update ⟨stack'⟩ s event) := by
  have e1 : updateLoop event (i + 1) s stack = (s1, []) := by
    rw [updateLoop_step event i s stack layer h, hu]
    rfl
  have e2 : updateLoop event (i + 1) s stack' = (s1, []) := by
    rw [updateLoop_step event i s stack' layer' h', hu']
    rfl
  refine ⟨e1, e1.trans e2.symm, fun ht ht' => ?_⟩
  constructor
  · rw [update_eq]
    simp only [ht, e1]
    rfl
  · rw [update_eq, update_eq]
    simp only [ht, ht', e1, e2]

/-- C2: a layer visited at index `i` that returns a `Change` with action
`Remove` (with an arbitrary add list) removes exactly itself — the layers of
the add list, just inserted above `i`, survive, as do all other layers — and
the top-down pass halts: the call trace is `[(i, layer)]`, so no further
layer receives an authoritative call. -/
theorem C2_remove_exactly_self {S E : Type} (event : E) (i : Nat) (s : S)
    (stack : List (Layer S E)) (layer : Layer S E) (adds : List (Layer S E)) (s1 : S)
    (h : stack[i]? = some layer)
    (hu : layer.update s event = (s1, ⟨adds, ChangeAction.remove⟩)) :
    updateLoopT event (i + 1) s stack =
      (s1, stack.take i ++ adds ++ stack.drop (i + 1), [(i, layer)]) := by
  rw [updateLoopT_step event i s stack layer h, hu]

/-- C3: whatever `Change` the layer visited at index `i` returns, its add
list is spliced into the stack immediately above index `i`, in its given
order (`stack.take (i + 1)` has length `i + 1`, so the first list element
lands at index `i + 1`, directly above `i`, and each later element directly
above the previous), and the action is interpreted only on the stack that
already contains the insertion (`Clear` then discards it wholesale). -/
theorem C3_add_list_spliced_above {S E : Type} (event : E) (i : Nat) (s : S)
    (stack : List (Layer S E)) (layer : Layer S E) (s1 : S) (ch : Change S E)
    (h : stack[i]? = some layer) (hu : layer.update s event = (s1, ch)) :
    updateLoop event (i + 1) s stack =
      match ChangeOf.action ch with
      | ChangeAction.none =>
          (s1, stack.take (i + 1) ++ ChangeOf.add ch ++ stack.drop (i + 1))
      | ChangeAction.pass => updateLoop event i s1
          (stack.take (i + 1) ++ ChangeOf.add ch ++ stack.drop (i + 1))
      | ChangeAction.remove =>
          (s1, stack.take i ++ ChangeOf.add ch ++ stack.drop (i + 1))
      | ChangeAction.clear => (s1, []) := by
  rw [updateLoop_step event i s stack layer h, hu]

/-- C4: a layer visited at index `i` that returns `Change.replace adds` is
removed, and `adds` takes its former place in the stack, in order, with the
layers below `i` and above `i` unchanged. -/
theorem C4_replace_in_place {S E : Type} (event : E) (i : Nat) (s : S)
    (stack : List (Layer S E)) (layer : Layer S E) (adds : List (Layer S E)) (s1 : S)
    (h : stack[i]? = some layer)
    (hu : layer.update s event = (s1, Change.replace adds)) :
    updateLoop event (i + 1) s stack = (s1, stack.take i ++ adds ++ stack.drop (i + 1)) := by
  rw [updateLoop_step event i s stack layer h, hu]
  rfl

/-- C5: a layer visited at index `i` that returns `Change.pass` leaves the
stack untouched and the pass continues at exactly the next lower index
(fuel `i`, i.e. index `i - 1`); if the bottom-most layer (index 0) returns
`Pass`, the pass ends with `(s1, stack)` — the stack unchanged — which is
exactly the effect a `Change.none` from the bottom layer produces. -/
theorem C5_pass_goes_down_one {S E : Type} (event : E) (i : Nat) (s : S)
    (stack : List (Layer S E)) (layer : Layer S E) (s1 : S)
    (h : stack[i]? = some layer) (hu : layer.update s event = (s1, Change.pass)) :
    updateLoop event (i + 1) s stack = updateLoop event i s1 stack ∧
      (i = 0 → updateLoop event (i + 1) s stack = (s1, stack)) ∧
      ∀ (stack2 : List (Layer S E)) (layer2 : Layer S E),
        stack2[0]? = some layer2 → layer2.update s event = (s1, Change.none) →
        updateLoop event 1 s stack2 = (s1, stack2) := by
  have hsplice : stack.take (i + 1) ++ ([] : List (Layer S E)) ++ stack.drop (i + 1) = stack := by
    rw [List.append_nil, List.take_append_drop]
  refine ⟨?_, ?_, ?_⟩
  · rw [updateLoop_step event i s stack layer h, hu]
    simp only [Change.pass, hsplice]
  · intro hi
    subst hi
    rw [updateLoop_step event 0 s stack layer h, hu]
    simp only [Change.pass, hsplice]
    rfl
  · intro stack2 layer2 h2 hu2
    rw [updateLoop_step event 0 s stack2 layer2 h2, hu2]
    have hsp2 : stack2.take (0 + 1) ++ ([] : List (Layer S E)) ++ stack2.drop (0 + 1) =
        stack2 := by
      rw [List.append_nil, List.take_append_drop]
    simp only [Change.none, hsp2]

/-- C6: if the layer visited at index `i` returns a `Change` with action
`None`, the authoritative call trace is just `[(i, layer)]` — no layer below
`i` receives an `update` call — while the passive trace over the resulting
stack contains every surviving layer, with the layers below `i`
(`stack.take i`, untouched) as its prefix. -/
theorem C6_none_halts_auth_passive_continues {S E : Type} (event : E) (i : Nat) (s : S)
    (stack : List (Layer S E)) (layer : Layer S E) (adds : List (Layer S E)) (s1 : S)
    (h : stack[i]? = some layer)
    (hu : layer.update s event = (s1, ⟨adds, ChangeAction.none⟩)) :
    updateLoopT event (i + 1) s stack =
      (s1, stack.take (i + 1) ++ adds ++ stack.drop (i + 1), [(i, layer)]) ∧
      (passiveLoopT event s1 (stack.take (i + 1) ++ adds ++ stack.drop (i + 1))).2 =
        stack.take (i + 1) ++ adds ++ stack.drop (i + 1) ∧
      stack.take i <+:
        (passiveLoopT event s1 (stack.take (i + 1) ++ adds ++ stack.drop (i + 1))).2 := by
  refine ⟨?_, passiveLoopT_trace event s1 _, ?_⟩
  · rw [updateLoopT_step event i s stack layer h, hu]
  · rw [passiveLoopT_trace event s1 _]
    have h1 : stack.take i <+: stack.take (i + 1) := by
      have : (stack.take (i + 1)).take i = stack.take i := by
        rw [List.take_take, Nat.min_eq_left (Nat.le_succ i)]
      rw [← this]
      exact List.take_prefix i (stack.take (i + 1))
    calc stack.take i <+: stack.take (i + 1) := h1
      _ <+: stack.take (i + 1) ++ (adds ++ stack.drop (i + 1)) := List.prefix_append _ _
      _ = stack.take (i + 1) ++ adds ++ stack.drop (i + 1) := by rw [List.append_assoc]

/-- C7: every `update` call, after the authoritative pass halts for whatever
reason, invokes `passive_update` exactly once on each layer of the final
post-mutation stack, in stack order from bottom to top (the passive trace is
the final stack itself), and the instrumented dispatch computes exactly the
plain one — no layer can cut the passive pass short or redirect it. -/
theorem C7_passive_pass_runs_in_full {S E : Type} (m : LayerManager S E) (s : S) (event : E) :
    (m.updateT s event).2.2 = ((m.update s event).1).layers ∧
      (m.updateT s event).1 = m.update s event := by
  have hfst := updateLoopT_fst event m.layers.length s m.layers
  have h1 : (updateLoopT event m.layers.length s m.layers).1 =
      (updateLoop event m.layers.length s m.layers).1 := by
    rw [← hfst]
  have h2 : (updateLoopT event m.layers.length s m.layers).2.1 =
      (updateLoop event m.layers.length s m.layers).2 := by
    rw [← hfst]
  constructor
  · rw [updateT_eq, update_eq]
    simp only [passiveLoopT_trace, h2]
  · rw [updateT_eq, update_eq]
    simp only [passiveLoopT_fst, h1, h2]

/-- C8: a manager with an empty stack reports `is_active = false`, and
`update` on it is a safe no-op: the stack stays empty, the state is returned
unchanged, and neither `update` nor `passive_update` is invoked on any layer
(both instrumentation traces are empty). -/
theorem C8_empty_manager_noop {S E : Type} (s : S) (event : E) :
    (LayerManager.new ([] : List (Layer S E))).is_active = false ∧
      LayerManager.update (LayerManager.new []) s event = (LayerManager.new [], s) ∧
      (LayerManager.new ([] : List (Layer S E))).updateT s event =
        ((LayerManager.new [], s), [], []) := by
  exact ⟨rfl, rfl, rfl⟩

/-- The `Change` values constructible through the public API of the source
(`none`, `pass`, `add`, `remove`, `replace`, `close`, `clear`); the fields of
`Change` are private in the source, so these are all the obtainable values. -/
def IsPublicChange {S E : Type} (c : Change S E) : Prop :=
  c = Change.none ∨ c = Change.pass ∨ (∃ l, c = Change.add l) ∨ c = Change.remove ∨
    (∃ l, c = Change.replace l) ∨ c = Change.close ∨ (∃ l, c = Change.clear l)

/-- C9: the only public constructor producing action `Pass` is `pass()`, so
every publicly obtainable `Change` with action `Pass` has an empty add list;
consequently a `Pass` step during dispatch modifies nothing: the pass simply
continues one index lower on the very same stack. -/
theorem C9_public_pass_has_empty_add {S E : Type} (c : Change S E)
    (hpub : IsPublicChange c) (hact : ChangeOf.action c = ChangeAction.pass) :
    ChangeOf.add c = ([] : List (Layer S E)) ∧
      ∀ (event : E) (i : Nat) (s : S) (stack : List (Layer S E)) (layer : Layer S E) (s1 : S),
        stack[i]? = some layer → layer.update s event = (s1, c) →
        updateLoop event (i + 1) s stack = updateLoop event i s1 stack := by
  have hc : c = Change.pass := by
    rcases hpub with h | h | ⟨l, h⟩ | h | ⟨l, h⟩ | h | ⟨l, h⟩ <;> subst h <;>
      first
        | rfl
        | simp [Change.none, Change.add, Change.remove, Change.replace, Change.close,
            Change.clear] at hact
  subst hc
  refine ⟨rfl, ?_⟩
  intro event i s stack layer s1 h hu
  rw [updateLoop_step event i s stack layer h, hu]
  have hsp : stack.take (i + 1) ++ ([] : List (Layer S E)) ++ stack.drop (i + 1) = stack := by
    rw [List.append_nil, List.take_append_drop]
  simp only [Change.pass, hsp]

/-- C10: within a single `update` call, authoritative `update` calls go to
consecutive descending indices starting at the initial top — a list of
distinct indices, so each layer is called at most once — and every call hits
the layer that occupied that index in the stack as it was when the call
began; in particular no layer inserted via an add list during the same
dispatch ever receives an authoritative call. -/
theorem C10_auth_only_original_layers {S E : Type} (m : LayerManager S E) (s : S) (event : E) :
    ((m.updateT s event).2.1.map Prod.fst).Nodup ∧
      (m.updateT s event).2.1.map Prod.fst =
        (List.range' (m.layers.length - (m.updateT s event).2.1.length)
          (m.updateT s event).2.1.length).reverse ∧
      ∀ p ∈ (m.updateT s event).2.1, m.layers[p.1]? = some p.2 := by
  obtain ⟨⟨hk, hmap⟩, hmem⟩ :=
    updateLoopT_trace_spec event m.layers.length s m.layers (le_refl _)
  have hTeq : (m.updateT s event).2.1 =
      (updateLoopT event m.layers.length s m.layers).2.2 := by
    rw [updateT_eq]
  rw [hTeq]
  refine ⟨?_, hmap, hmem⟩
  rw [hmap]
  exact List.nodup_reverse.mpr (List.nodup_range' _ _)

/-! ## Concrete layers exercising the theorems -/

/-- A layer whose change is `none` with no additions. -/
def addedA : Layer Nat Nat := Layer.mk (fun s _ => (s, Change.none)) (fun s _ => s)

/-- A second distinguishable inert layer. -/
def addedB : Layer Nat Nat := Layer.mk (fun s _ => (s + 2, Change.none)) (fun s _ => s + 3)

/-- A bottom layer that handles events itself. -/
def bottomLayer : Layer Nat Nat := Layer.mk (fun s _ => (s + 7, Change.none)) (fun s _ => s + 5)

/-- A layer answering `Change.clear [addedA, addedB]` to every event. -/
def clearingLayer : Layer Nat Nat :=
  Layer.mk (fun s _ => (s + 1, Change.clear [addedA, addedB])) (fun s _ => s)

/-- A layer answering `Change.close` to every event. -/
def closingLayer : Layer Nat Nat :=
  Layer.mk (fun s _ => (s + 1, Change.close)) (fun s _ => s)

/-- A layer answering a `Remove` change that also adds `addedA`. -/
def removingLayer : Layer Nat Nat :=
  Layer.mk (fun s _ => (s + 1, ⟨[addedA], ChangeAction.remove⟩)) (fun s _ => s)

/-- A layer answering `Change.replace [addedA, addedB]` to every event. -/
def replacingLayer : Layer Nat Nat :=
  Layer.mk (fun s _ => (s + 1, Change.replace [addedA, addedB])) (fun s _ => s)

/-- A layer answering `Change.pass` to every event. -/
def passingLayer : Layer Nat Nat :=
  Layer.mk (fun s _ => (s + 1, Change.pass)) (fun s _ => s)

/-- A layer answering a `None` change that also adds `addedA`. -/
def noneAddLayer : Layer Nat Nat :=
  Layer.mk (fun s _ => (s + 1, ⟨[addedA], ChangeAction.none⟩)) (fun s _ => s)

/-- Witness for C1: with `clearingLayer` (resp. `closingLayer`) on top of
`bottomLayer`, dispatch empties the stack identically for both. -/
theorem C1_witness :
    ([bottomLayer, clearingLayer] : List (Layer Nat Nat))[1]? = some clearingLayer ∧
    clearingLayer.update 0 0 = (1, Change.clear [addedA, addedB]) ∧
    ([bottomLayer, closingLayer] : List (Layer Nat Nat))[1]? = some closingLayer ∧
    closingLayer.update 0 0 = (1, Change.close) ∧
    (updateLoop 0 (1 + 1) 0 [bottomLayer, clearingLayer] = (1, []) ∧
      updateLoop 0 (1 + 1) 0 [bottomLayer, clearingLayer] =
        updateLoop 0 (1 + 1) 0 [bottomLayer, closingLayer] ∧
      (([bottomLayer, clearingLayer] : List (Layer Nat Nat)).length = 1 + 1 →
        ([bottomLayer, closingLayer] : List (Layer Nat Nat)).length = 1 + 1 →
        LayerManager.update ⟨[bottomLayer, clearingLayer]⟩ 0 0 = (⟨[]⟩, 1) ∧
        LayerManager.update ⟨[bottomLayer, clearingLayer]⟩ 0 0 =
          LayerManager.update ⟨[bottomLayer, closingLayer]⟩ 0 0)) :=
  ⟨rfl, rfl, rfl, rfl,
    C1_clear_equiv_close 0 1 0 [bottomLayer, clearingLayer] [bottomLayer, closingLayer]
      clearingLayer closingLayer [addedA, addedB] 1 rfl rfl rfl rfl⟩

/-- Witness for C2: the removing layer disappears, the layer it inserted
stays, and only the removing layer was called. -/
theorem C2_witness :
    ([bottomLayer, removingLayer] : List (Layer Nat Nat))[1]? = some removingLayer ∧
    removingLayer.update 0 0 = (1, ⟨[addedA], ChangeAction.remove⟩) ∧
    updateLoopT 0 (1 + 1) 0 [bottomLayer, removingLayer] =
      (1, [bottomLayer, addedA], [(1, removingLayer)]) :=
  ⟨rfl, rfl,
    C2_remove_exactly_self 0 1 0 [bottomLayer, removingLayer] removingLayer [addedA] 1 rfl rfl⟩

/-- Witness for C3: the added layer lands directly above the originator. -/
theorem C3_witness :
    ([bottomLayer, noneAddLayer] : List (Layer Nat Nat))[1]? = some noneAddLayer ∧
    noneAddLayer.update 0 0 = (1, ⟨[addedA], ChangeAction.none⟩) ∧
    updateLoop 0 (1 + 1) 0 [bottomLayer, noneAddLayer] =
      (1, [bottomLayer, noneAddLayer, addedA]) :=
  ⟨rfl, rfl,
    C3_add_list_spliced_above 0 1 0 [bottomLayer, noneAddLayer] noneAddLayer 1
      ⟨[addedA], ChangeAction.none⟩ rfl rfl⟩

/-- Witness for C4: the replacement list takes the originator's position. -/
theorem C4_witness :
    ([bottomLayer, replacingLayer] : List (Layer Nat Nat))[1]? = some replacingLayer ∧
    replacingLayer.update 0 0 = (1, Change.replace [addedA, addedB]) ∧
    updateLoop 0 (1 + 1) 0 [bottomLayer, replacingLayer] = (1, [bottomLayer, addedA, addedB]) :=
  ⟨rfl, rfl,
    C4_replace_in_place 0 1 0 [bottomLayer, replacingLayer] replacingLayer [addedA, addedB] 1
      rfl rfl⟩

/-- Witness for C5: a `Pass` from the top of a two-layer stack continues the
pass at the bottom layer on the unchanged stack. -/
theorem C5_witness :
    ([bottomLayer, passingLayer] : List (Layer Nat Nat))[1]? = some passingLayer ∧
    passingLayer.update 0 0 = (1, Change.pass) ∧
    updateLoop 0 (1 + 1) 0 [bottomLayer, passingLayer] =
      updateLoop 0 1 1 [bottomLayer, passingLayer] :=
  ⟨rfl, rfl,
    (C5_pass_goes_down_one 0 1 0 [bottomLayer, passingLayer] passingLayer 1 rfl rfl).1⟩

/-- Witness for C6: after a `None` from the top layer only that layer was
called, yet the passive trace covers the whole surviving stack, the bottom
layer included. -/
theorem C6_witness :
    ([bottomLayer, noneAddLayer] : List (Layer Nat Nat))[1]? = some noneAddLayer ∧
    noneAddLayer.update 0 0 = (1, ⟨[addedA], ChangeAction.none⟩) ∧
    (updateLoopT 0 (1 + 1) 0 [bottomLayer, noneAddLayer] =
        (1, [bottomLayer, noneAddLayer, addedA], [(1, noneAddLayer)]) ∧
      (passiveLoopT 0 1 [bottomLayer, noneAddLayer, addedA]).2 =
        [bottomLayer, noneAddLayer, addedA] ∧
      [bottomLayer] <+: (passiveLoopT 0 1 [bottomLayer, noneAddLayer, addedA]).2) :=
  ⟨rfl, rfl,
    C6_none_halts_auth_passive_continues 0 1 0 [bottomLayer, noneAddLayer] noneAddLayer
      [addedA] 1 rfl rfl⟩

/-- Witness for C9: `Change.pass` is public with action `Pass`, and a `Pass`
step leaves the concrete stack untouched, continuing one index lower. -/
theorem C9_witness :
    IsPublicChange (Change.pass : Change Nat Nat) ∧
    ChangeOf.action (Change.pass : Change Nat Nat) = ChangeAction.pass ∧
    updateLoop 0 (1 + 1) 0 [bottomLayer, passingLayer] =
      updateLoop 0 1 1 [bottomLayer, passingLayer] :=
  ⟨Or.inr (Or.inl rfl), rfl,
    (C9_public_pass_has_empty_add Change.pass (Or.inr (Or.inl rfl)) rfl).2
      0 1 0 [bottomLayer, passingLayer] passingLayer 1 rfl rfl⟩
